import Mathlib

/-!
# Verification of the redactable core: detection layer and policy engine

A shallow embedding of the core of the `redactable` repository
(`src/redactable/detectors/{base,regexes,registry}.py` and
`src/redactable/policy/engine.py`) together with theorems settling the
frozen claims about it.

Conventions of the embedding:
* Python `str` values are embedded as `List Char`; indices are exact
  character offsets, matching Python's `len`/slicing on these ASCII texts.
* Python `int` is `Int` (engine deltas) or `Nat` (span offsets, which the
  code keeps non-negative); Python `%` on a positive modulus agrees with
  `Int.emod`.
* Python floats that only ever hold decimal literals (confidences 0.4,
  0.5, 0.9, 0.92, ...) are embedded exactly, as hundredths in `Nat`; the
  code never does float arithmetic on them, only construction and
  comparison.
* `re` patterns are embedded by a small backtracking matcher
  (`matchRE`) whose alternation/option order reproduces Python's
  leftmost, greedy, depth-first backtracking; `findIter` reproduces
  `finditer` (leftmost match, resume at match end, skip-by-one on empty
  matches).  Character classes are the ASCII readings of `\d`, `\s`,
  `\b`, which coincide with Python on the ASCII inputs at issue.
-/

namespace Redactable

/-! ## Python string helpers -/

/-- Python `s[i]` index normalisation for slices: negative indices count
from the end, and the result is clamped to `[0, len]`. -/
def pyIdx (len : Nat) (i : Int) : Nat :=
  (Int.toNat (if i < 0 then (len : Int) + i else i)).min len

/-- Python `s[:i]` for an arbitrary `int` index. -/
def pyTake (s : List Char) (i : Int) : List Char :=
  s.take (pyIdx s.length i)

/-- Python `s[i:]` for an arbitrary `int` index. -/
def pyDrop (s : List Char) (i : Int) : List Char :=
  s.drop (pyIdx s.length i)

/-- Python `s[a:b]` for arbitrary `int` bounds. -/
def pySlice (s : List Char) (a b : Int) : List Char :=
  let i := pyIdx s.length a
  let j := pyIdx s.length b
  (s.drop i).take (j - i)

/-- Python `s[a:b]` for `Nat` bounds (the common case `0 ≤ a ≤ b ≤ len`). -/
def sliceN (s : List Char) (a b : Nat) : List Char :=
  (s.drop a).take (b - a)

/-- Python `s[-t:]` for a non-negative `t`.  Note the Python pitfall this
embeds faithfully: for `t = 0`, `s[-0:]` is `s[0:]`, the whole string. -/
def pyTailSlice (s : List Char) (t : Nat) : List Char :=
  if t = 0 then s else s.drop (s.length - t)

/-- Python string repetition `g * n` (the whole string repeated). -/
def pyRepeat (g : List Char) (n : Nat) : List Char :=
  (List.replicate n g).flatten

/-! ## `detectors/base.py` helpers

`_DIGITS = re.compile(r"\\D+")` is a raw string containing a doubled
backslash, so the pattern is the two-character escape `\\` followed by
`D+`: it matches one literal backslash followed by one or more literal
`D` characters — not "non-digits" as its docstring says.  `digitsOnly`
embeds `_DIGITS.sub("", s)` exactly: scanning left to right, every
occurrence of a backslash followed by a maximal run of `D`s is deleted,
and everything else (including spaces and other non-digits) is kept. -/

def digitsOnlyAux : Nat → List Char → List Char
  | 0, s => s
  | _ + 1, [] => []
  | _ + 1, [c] => [c]
  | fuel + 1, c :: d :: rest =>
    if c = '\\' ∧ d = 'D' then
      digitsOnlyAux fuel (List.dropWhile (fun x => x = 'D') rest)
    else
      c :: digitsOnlyAux fuel (d :: rest)

/-- Every recursive step of `digitsOnlyAux` shortens the list by at
least one character, so `s.length` fuel is never exhausted and the
fuel-0 fallback is unreachable. -/
def digitsOnly (s : List Char) : List Char :=
  digitsOnlyAux s.length s

/-- `base.luhn_ok`: re-strips with `digits_only`, rejects fewer than 12
characters, then folds the Luhn step right-to-left.  `ord(ch) - 48` is
taken over whatever characters survive `digitsOnly` (spaces give `-16`),
exactly as the Python does. -/
def luhnOk (num : List Char) : Bool :=
  let d := digitsOnly num
  if d.length < 12 then false
  else
    let total := (d.reverse.foldl (fun (st : Int × Bool) ch =>
      let x : Int := (ch.toNat : Int) - 48
      let x := if st.2 then (if x * 2 > 9 then x * 2 - 9 else x * 2) else x
      (st.1 + x, !st.2)) ((0 : Int), false)).1
    total % 10 == 0

/-- Python `str.isdigit` restricted to ASCII: non-empty and all `0`-`9`. -/
def strIsDigit (s : List Char) : Bool :=
  !s.isEmpty && s.all (fun c => decide (48 ≤ c.toNat ∧ c.toNat ≤ 57))

/-- Python `int(s)` for a string of ASCII digits. -/
def natOfDigits (s : List Char) : Nat :=
  s.foldl (fun a c => a * 10 + (c.toNat - 48)) 0

/-- `base.guess_card_brand`, an else-if chain in source order. -/
def guessCardBrand (pan : List Char) : Option (List Char) :=
  let d := digitsOnly pan
  if List.isPrefixOf "4".toList d ∧ (d.length = 13 ∨ d.length = 16 ∨ d.length = 19) then
    some "visa".toList
  else if strIsDigit (d.take 2) ∧ 51 ≤ natOfDigits (d.take 2) ∧
      natOfDigits (d.take 2) ≤ 55 ∧ d.length = 16 then
    some "mastercard".toList
  else if strIsDigit (d.take 4) ∧ 2221 ≤ natOfDigits (d.take 4) ∧
      natOfDigits (d.take 4) ≤ 2720 ∧ d.length = 16 then
    some "mastercard".toList
  else if (List.isPrefixOf "34".toList d ∨ List.isPrefixOf "37".toList d) ∧ d.length = 15 then
    some "amex".toList
  else if List.isPrefixOf "35".toList d ∧ d.length = 16 then
    some "jcb".toList
  else if List.isPrefixOf "6011".toList d ∨ List.isPrefixOf "64".toList d ∨
      List.isPrefixOf "65".toList d then
    some "discover".toList
  else if d.take 4 = "3000".toList ∨ d.take 4 = "3050".toList ∨ d.take 4 = "3095".toList ∨
      d.take 2 = "36".toList ∨ d.take 2 = "38".toList then
    some "diners_club".toList
  else if List.isPrefixOf "50".toList d ∨ List.isPrefixOf "56".toList d ∨
      List.isPrefixOf "57".toList d ∨ List.isPrefixOf "58".toList d ∨
      List.isPrefixOf "63".toList d ∨ List.isPrefixOf "67".toList d then
    some "maestro".toList
  else if List.isPrefixOf "62".toList d then
    some "unionpay".toList
  else
    none

/-! ## Finding -/

/-- Metadata values stored in `Finding.extras` by the embedded detectors
and the registry: booleans, strings, or Python `None`. -/
inductive XVal where
  | b (val : Bool)
  | str (val : List Char)
  | none
deriving DecidableEq, Repr

/-- `base.Finding`.  The Python constructor validates
`0 ≤ confidence ≤ 1`; every finding built below satisfies it.  Every
confidence the embedded code constructs is an exact two-decimal literal
(0.0, 0.4, 0.5, 0.9, 0.92, 1.0, ...), embedded as hundredths
(`confidence` is the literal times 100) to stay in kernel-computable
arithmetic; nothing in the embedded core computes with confidences —
they are only constructed and compared.  `extras` is an
insertion-ordered association list, like a Python dict. -/
structure Finding where
  kind : List Char
  value : List Char
  span : Nat × Nat
  confidence : Nat
  normalized : Option (List Char) := Option.none
  extras : List (List Char × XVal) := []
deriving DecidableEq, Repr

/-! ## Regex engine -/

/-- Regex fragments sufficient for `RE_CARD` and `RE_NHS`: character
classes, sequencing, greedy option, and the word-boundary assertion. -/
inductive RE where
  | eps
  | tok (p : Char → Bool)
  | seq (a b : RE)
  | opt (a : RE)
  | wb

/-- ASCII `\w` (`[a-zA-Z0-9_]`). -/
def isWordChar (c : Char) : Bool :=
  let n := c.toNat
  decide ((97 ≤ n ∧ n ≤ 122) ∨ (65 ≤ n ∧ n ≤ 90) ∨ (48 ≤ n ∧ n ≤ 57) ∨ n = 95)

/-- ASCII `\d`. -/
def isDigitChar (c : Char) : Bool :=
  decide (48 ≤ c.toNat ∧ c.toNat ≤ 57)

/-- ASCII `\s`. -/
def isPySpace (c : Char) : Bool :=
  c = ' ' || c = '\t' || c = '\n' || c = '\r' || c = '\x0b' || c = '\x0c'

def wordAt (text : List Char) (i : Nat) : Bool :=
  match text[i]? with
  | some c => isWordChar c
  | Option.none => false

/-- `\b` at position `pos`: word-ness differs on the two sides. -/
def wordBoundary (text : List Char) (pos : Nat) : Bool :=
  (if pos = 0 then false else wordAt text (pos - 1)) != wordAt text pos

/-- Backtracking matcher in continuation-passing style.  `opt` tries the
body first (greedy) and falls back to the continuation, giving exactly
Python's depth-first backtracking order. -/
def matchRE (text : List Char) : RE → Nat → (Nat → Option Nat) → Option Nat
  | .eps, pos, k => k pos
  | .tok p, pos, k =>
    match text[pos]? with
    | some c => if p c then k (pos + 1) else Option.none
    | Option.none => Option.none
  | .seq a b, pos, k => matchRE text a pos (fun q => matchRE text b q k)
  | .opt a, pos, k => (matchRE text a pos k).orElse (fun _ => k pos)
  | .wb, pos, k => if wordBoundary text pos then k pos else Option.none

def firstMatchFromAux (r : RE) (text : List Char) : Nat → Nat → Option (Nat × Nat)
  | 0, _ => Option.none
  | fuel + 1, pos =>
    if pos ≤ text.length then
      match matchRE text r pos some with
      | some e => some (pos, e)
      | Option.none =>
        if pos = text.length then Option.none
        else firstMatchFromAux r text fuel (pos + 1)
    else Option.none

/-- Leftmost match attempt starting at `pos` or later.  The scan stops
at `text.length`, so `text.length + 1` fuel is never exhausted. -/
def firstMatchFrom (r : RE) (text : List Char) (pos : Nat) : Option (Nat × Nat) :=
  firstMatchFromAux r text (text.length + 1) pos

/-- `re.finditer`: repeatedly take the leftmost match, resume at its end
(one past it for an empty match).  The resume position strictly
increases, so `text.length + 2` fuel never runs out. -/
def findIterAux (r : RE) (text : List Char) : Nat → Nat → List (Nat × Nat)
  | 0, _ => []
  | fuel + 1, pos =>
    match firstMatchFrom r text pos with
    | Option.none => []
    | some (s, e) =>
      (s, e) :: findIterAux r text fuel (if e ≤ s then s + 1 else e)

def findIter (r : RE) (text : List Char) : List (Nat × Nat) :=
  findIterAux r text (text.length + 2) 0

/-- `r{n}`: `n` mandatory copies. -/
def nOf (r : RE) : Nat → RE
  | 0 => .eps
  | n + 1 => .seq r (nOf r n)

/-- `r{0,n}` greedy, as the nested option `(r (r (...)?)?)?`, which
backtracks highest-count-first and latest-iteration-first exactly like
Python's bounded greedy repeat. -/
def upTo (r : RE) : Nat → RE
  | 0 => .eps
  | n + 1 => .opt (.seq r (upTo r n))

/-- One repetition unit of `RE_CARD`: `\d[ -]?`. -/
def cardRep : RE :=
  .seq (.tok isDigitChar) (.opt (.tok (fun c => c = ' ' || c = '-')))

/-- `RE_CARD = (?:\b(?:\d[ -]?){13,19}\b)`. -/
def reCard : RE :=
  .seq .wb (.seq (.seq (nOf cardRep 13) (upTo cardRep 6)) .wb)

/-- `[\s-]?` as used by `RE_NHS`. -/
def nhsSep : RE :=
  .opt (.tok (fun c => isPySpace c || c = '-'))

/-- `RE_NHS = \b(\d{3})[\s-]?(\d{3})[\s-]?(\d{4})\b` (the groups do not
affect the span or value, which use group 0). -/
def reNHS : RE :=
  .seq .wb (.seq (nOf (.tok isDigitChar) 3) (.seq nhsSep
    (.seq (nOf (.tok isDigitChar) 3) (.seq nhsSep
      (.seq (nOf (.tok isDigitChar) 4) .wb)))))

/-! ## `regexes.CreditCardDetector` and `regexes.NHSNumberDetector`
(the dependency-free fallback paths: the optional `stdnum` import is
absent, as in §9 of the spec's pluggable-validator note). -/

def creditCardDetect (text : List Char) : List Finding :=
  (findIter reCard text).filterMap (fun se =>
    let raw := sliceN text se.1 se.2
    let digits := digitsOnly raw
    if 13 ≤ digits.length ∧ digits.length ≤ 19 then
      let ok := luhnOk digits
      some { kind := "credit_card".toList, value := raw, span := se
             confidence := if ok then 90 else 40
             normalized := some digits
             extras := [("luhn_valid".toList, XVal.b ok),
                        ("brand".toList,
                          match guessCardBrand digits with
                          | some br => XVal.str br
                          | Option.none => XVal.none)] }
    else Option.none)

/-- The mod-11 fallback in `NHSNumberDetector.detect`: weights 10..2
over the first nine characters, `check = 11 - (sum mod 11)`, `11 ↦ 0`,
`10` invalid, compare with the tenth digit. -/
def nhsValid (d : List Char) : Bool :=
  let total := ((d.take 9).zip [10, 9, 8, 7, 6, 5, 4, 3, 2]).foldl
    (fun acc p => acc + (p.1.toNat - 48) * p.2) 0
  let check0 := 11 - total % 11
  let check := if check0 = 11 then 0 else check0
  decide (check ≠ 10 ∧ check = (d.getD 9 '0').toNat - 48)

def nhsDetect (text : List Char) : List Finding :=
  (findIter reNHS text).filterMap (fun se =>
    let raw := sliceN text se.1 se.2
    let d := digitsOnly raw
    if d.length = 10 then
      let valid := nhsValid d
      some { kind := "nhs_number".toList, value := raw, span := se
             confidence := if valid then 92 else 40
             normalized := some d
             extras := [("valid".toList, XVal.b valid),
                        ("reason".toList, XVal.none)] }
    else Option.none)

/-! ## Stable sorting

Python's `sorted` is a stable sort.  `stableSortBy le` is a structural
stable insertion sort: each element is inserted after every
already-placed element `y` with `le y x`, so elements tied under `le`
keep their input order.  Any two stable sorts with respect to the same
total preorder produce the same list, so this is extensionally
`sorted(...)` with the corresponding key. -/

def insertLe (le : α → α → Bool) (x : α) : List α → List α
  | [] => [x]
  | y :: ys => if le y x then y :: insertLe le x ys else x :: y :: ys

def stableSortBy (le : α → α → Bool) (l : List α) : List α :=
  l.foldl (fun acc x => insertLe le x acc) []

/-! ## `registry.DetectorRegistry.scan`

A detector's `detect` is a Python generator.  `scan` consumes it with
`findings.extend(...)` inside a `try`: items yielded before an exception
stay in the list, then the caught exception appends a synthesized
`error` Finding.  `DetectResult` embeds one run of such a generator:
the prefix of Findings it yielded, plus the exception message if it
raised instead of finishing. -/

structure DetectResult where
  yielded : List Finding
  error : Option (List Char) := Option.none

structure Detector where
  name : List Char
  detect : List Char → DetectResult

/-- The fail-safe Finding `scan` appends when a detector raises. -/
def errorFinding (name msg : List Char) : Finding :=
  { kind := "error".toList, value := name, span := (0, 0), confidence := 0
    normalized := Option.none
    extras := [("error".toList, XVal.str msg)] }

/-- The accumulation loop of `scan`, before sorting. -/
def scanCollect (ds : List Detector) (text : List Char) : List Finding :=
  ds.foldl (fun acc d =>
    let r := d.detect text
    match r.error with
    | Option.none => acc ++ r.yielded
    | some e => acc ++ r.yielded ++ [errorFinding d.name e]) []

/-- The sort key comparison `lambda f: (f.span[0], f.span[1])`:
lexicographic on the span pair. -/
def keyLe (f g : Finding) : Bool :=
  decide (f.span.1 < g.span.1) ||
    (f.span.1 == g.span.1 && decide (f.span.2 ≤ g.span.2))

/-- `DetectorRegistry.scan`: collect every detector's results in
registration order, then stable-sort by `(start, end)`. -/
def scan (ds : List Detector) (text : List Char) : List Finding :=
  stableSortBy keyLe (scanCollect ds text)

/-! ## `policy/engine.py` -/

/-- `_MaskCfg` (defaults from the dataclass). -/
structure MaskCfg where
  keep_head : Nat := 0
  keep_tail : Nat := 4
  glyph : List Char := "•".toList
deriving Repr

/-- `_mask_segment`.  Note `s[-cfg.keep_tail:]` is `pyTailSlice`, so for
`keep_tail = 0` the whole current substring is appended after the glyph
run. -/
def maskSegment (cfg : MaskCfg) (s : List Char) : List Char :=
  if s.length ≤ cfg.keep_head + cfg.keep_tail then
    pyRepeat cfg.glyph s.length
  else
    s.take cfg.keep_head ++
      pyRepeat cfg.glyph (s.length - cfg.keep_head - cfg.keep_tail) ++
      pyTailSlice s cfg.keep_tail

/-- `policy/model.py` rule actions (pydantic `Literal`, aliases already
normalized at load time). -/
inductive Action where
  | redact
  | mask
  | tokenize
deriving DecidableEq, Repr

/-- `policy/model.py` `Rule`, with the pydantic defaults.  The optional
`where` predicate (`RuleWhere.applies`) is a pure boolean function of
the Finding, embedded as an opaque-to-the-engine `Finding → Bool`; its
own regex internals are irrelevant to the engine claims.  pydantic
validates `keep_head, keep_tail ≥ 0` (hence `Nat`) and that
`replacement` is not the empty string (hence `Option.getD` embeds
`rule.replacement or default`). -/
structure Rule where
  id : List Char
  field : List Char
  action : Action
  whereP : Option (Finding → Bool) := Option.none
  replacement : Option (List Char) := Option.none
  keep_head : Nat := 0
  keep_tail : Nat := 4
  mask_glyph : List Char := "•".toList
  salt : List Char := []

/-- `policy/model.py` `Policy`. -/
structure Policy where
  version : Nat := 1
  name : List Char := []
  description : Option (List Char) := Option.none
  rules : List Rule

/-- `engine._cumulative_offset`: fold over the ledger, adding the deltas
recorded at original start indices strictly below `position`. -/
def cumulativeOffset (offsets : List (Nat × Int)) (position : Nat) : Int :=
  offsets.foldl (fun total sd => if sd.1 < position then total + sd.2 else total) 0

/-- The specification's closed form for the ledger: the sum of the
deltas of the recorded replacements whose original start is strictly
below `p`. -/
def sumDeltasBelow (offsets : List (Nat × Int)) (p : Nat) : Int :=
  ((offsets.filter (fun od => od.1 < p)).map (fun od => od.2)).sum

/-- `Python str.upper` (ASCII). -/
def upperStr (s : List Char) : List Char :=
  s.map Char.toUpper

/-- `placeholder.format(kind=...)` for templates whose only replacement
field is `{kind}` (the default template and every template at issue):
each occurrence of `{kind}` is substituted. -/
def formatKindAux (kindU : List Char) : Nat → List Char → List Char
  | 0, s => s
  | _ + 1, [] => []
  | fuel + 1, c :: rest =>
    if List.isPrefixOf "{kind}".toList (c :: rest) then
      kindU ++ formatKindAux kindU fuel ((c :: rest).drop 6)
    else
      c :: formatKindAux kindU fuel rest

def formatKind (s kindU : List Char) : List Char :=
  formatKindAux kindU s.length s

def defaultPlaceholder : List Char := "[REDACTED:{kind}]".toList

/-- Rule targeting in `apply_policy`: the `by_kind` group for
`rule.field` (grouping preserves relative order, so it equals a filter
by kind) then the optional `where` filter. -/
def survivors (findings : List Finding) (rule : Rule) : List Finding :=
  let targets := findings.filter (fun f => f.kind == rule.field)
  match rule.whereP with
  | Option.none => targets
  | some p => targets.filter p

/-- The adjusted-span computation of `apply_policy`: each original
endpoint is shifted by `_cumulative_offset` at that endpoint's own
original coordinate. -/
def adjustedTargets (offsets : List (Nat × Int)) (targets : List Finding) :
    List (Finding × Int × Int) :=
  targets.map (fun f =>
    (f, (f.span.1 : Int) + cumulativeOffset offsets f.span.1,
        (f.span.2 : Int) + cumulativeOffset offsets f.span.2))

/-- The per-action replacement tuples
`(adjusted_start, adjusted_end, replacement_text, original_start)`.
SHA-256 hex digests (the `tokenize` action) are embedded as an explicit
function parameter `hash`; no claim depends on digest values. -/
def ruleReplacements (hash : List Char → List Char) (rule : Rule) (out : List Char)
    (adjusted : List (Finding × Int × Int)) : List (Int × Int × List Char × Nat) :=
  match rule.action with
  | .redact =>
    let placeholder := rule.replacement.getD defaultPlaceholder
    adjusted.map (fun t =>
      (t.2.1, t.2.2, formatKind placeholder (upperStr t.1.kind), t.1.span.1))
  | .mask =>
    let cfg : MaskCfg :=
      { keep_head := rule.keep_head, keep_tail := rule.keep_tail, glyph := rule.mask_glyph }
    adjusted.map (fun t =>
      (t.2.1, t.2.2, maskSegment cfg (pySlice out t.2.1 t.2.2), t.1.span.1))
  | .tokenize =>
    adjusted.map (fun t =>
      (t.2.1, t.2.2, hash (rule.salt ++ (t.1.normalized.getD t.1.value)), t.1.span.1))

/-- One replacement application plus the ledger append:
`out = out[:adj_start] + replacement + out[adj_end:]`, recording
`(original_start, delta)` when `delta ≠ 0`. -/
def applyReplacement (st : List Char × List (Nat × Int))
    (r : Int × Int × List Char × Nat) : List Char × List (Nat × Int) :=
  match r with
  | (a, b, rep, orig) =>
    let out' := pyTake st.1 a ++ rep ++ pyDrop st.1 b
    let delta : Int := (rep.length : Int) - (b - a)
    (out', if delta = 0 then st.2 else st.2 ++ [(orig, delta)])

/-- Engine state threaded through the rules: the current text and the
offset ledger. -/
structure EngineState where
  out : List Char
  offsets : List (Nat × Int)
deriving Repr

/-- The body of `apply_policy`'s `for rule in policy.rules` loop.
Replacements are applied in descending order of adjusted start;
`sorted(..., reverse=True)` keeps ties in original order, which the
stable sort with the reversed comparison reproduces. -/
def processRule (hash : List Char → List Char) (findings : List Finding)
    (st : EngineState) (rule : Rule) : EngineState :=
  let targets := survivors findings rule
  let adjusted := adjustedTargets st.offsets targets
  let reps := ruleReplacements hash rule st.out adjusted
  let sortedReps := stableSortBy (fun r s => decide (s.1 ≤ r.1)) reps
  let res := sortedReps.foldl applyReplacement (st.out, st.offsets)
  ⟨res.1, res.2⟩

/-- `engine.apply_policy`. -/
def applyPolicy (hash : List Char → List Char) (policy : Policy)
    (findings : List Finding) (text : List Char) : List Char :=
  (policy.rules.foldl (processRule hash findings) ⟨text, []⟩).out

/-- The engine state just before rule `i` is processed. -/
def engineStateAt (hash : List Char → List Char) (policy : Policy)
    (findings : List Finding) (text : List Char) (i : Nat) : EngineState :=
  (policy.rules.take i).foldl (processRule hash findings) ⟨text, []⟩

/-- Number of start positions at which `pat` occurs in a string. -/
def countSubstr (pat : List Char) : List Char → Nat
  | [] => if pat.isEmpty then 1 else 0
  | c :: rest =>
    (if List.isPrefixOf pat (c :: rest) then 1 else 0) + countSubstr pat rest

/-- What one detector contributes to the accumulated findings list of
`scan`: its yielded prefix, plus the synthesized error Finding when it
raised. -/
def detectorContribution (text : List Char) (d : Detector) : List Finding :=
  let r := d.detect text
  match r.error with
  | Option.none => r.yielded
  | some e => r.yielded ++ [errorFinding d.name e]

/-! ## Concrete instances used by individual claims -/

/-- The end-to-end text of the offset-correctness scenario. -/
def mixedText : List Char := "Email test@example.com and phone 07123456789.".toList

/-- The email Finding of that scenario, spanning `test@example.com`. -/
def emailFinding : Finding :=
  { kind := "email".toList, value := "test@example.com".toList, span := (6, 22)
    confidence := 60, normalized := some "test@example.com".toList }

/-- The phone Finding of that scenario, spanning `07123456789`. -/
def phoneFinding : Finding :=
  { kind := "phone".toList, value := "07123456789".toList, span := (33, 44)
    confidence := 50, normalized := some "07123456789".toList }

/-- redact email with the default placeholder, then mask phone with
`keep_head=2, keep_tail=2, mask_glyph='*'`. -/
def mixedPolicy : Policy :=
  { rules :=
      [ { id := "redact-email".toList, field := "email".toList, action := .redact },
        { id := "mask-phone".toList, field := "phone".toList, action := .mask,
          keep_head := 2, keep_tail := 2, mask_glyph := "*".toList } ] }

/-- Text for the overlapping-findings offset scenario. -/
def overlapText : List Char := "0123456789AB".toList

/-- A Finding of kind `a` at span `(6, 8)`, strictly inside `findB`. -/
def findA : Finding :=
  { kind := "a".toList, value := "67".toList, span := (6, 8), confidence := 100 }

/-- A Finding of kind `b` at span `(5, 10)`, containing `findA`. -/
def findB : Finding :=
  { kind := "b".toList, value := "56789".toList, span := (5, 10), confidence := 100 }

/-- Rule 1 of the overlap scenario: shrinks `findA` (length-2 span,
length-1 replacement, hence delta `-1` recorded at original start 6). -/
def ruleShrinkA : Rule :=
  { id := "r1".toList, field := "a".toList, action := .redact,
    replacement := some "Z".toList }

/-- Rule 2 of the overlap scenario: processes `findB`, whose original
span `(5, 10)` straddles the ledger entry rule 1 recorded at 6. -/
def ruleRewriteB : Rule :=
  { id := "r2".toList, field := "b".toList, action := .redact,
    replacement := some "W".toList }

def overlapPolicy : Policy :=
  { rules := [ruleShrinkA, ruleRewriteB] }

/-- A Finding yielded by a detector before it raises. -/
def partialFinding : Finding :=
  { kind := "k".toList, value := "v".toList, span := (3, 4), confidence := 100 }

/-- A generator-style detector that yields one Finding and then raises
`boom`. -/
def genDetector : Detector :=
  { name := "gen".toList
    detect := fun _ => { yielded := [partialFinding], error := some "boom".toList } }

/-- The healthy Finding of the registry unit test
(`Finding(kind="ok", value="value", span=(1, 2), confidence=0.5)`). -/
def staticFinding : Finding :=
  { kind := "ok".toList, value := "value".toList, span := (1, 2)
    confidence := 50 }

/-- `_StaticDetector` of the registry unit test. -/
def staticDetector : Detector :=
  { name := "static".toList
    detect := fun _ => { yielded := [staticFinding] } }

/-- `_BrokenDetector` of the registry unit test: raises immediately. -/
def brokenDetector : Detector :=
  { name := "broken".toList
    detect := fun _ => { yielded := [], error := some "boom".toList } }

/-! ## Helper lemmas (shared infrastructure for the claim theorems) -/

theorem foldl_cumulativeOffset (p : Nat) (offs : List (Nat × Int)) (init : Int) :
    offs.foldl (fun total sd => if sd.1 < p then total + sd.2 else total) init
      = init + sumDeltasBelow offs p := by
  induction offs generalizing init with
  | nil => simp [sumDeltasBelow]
  | cons od rest ih =>
    by_cases h : od.1 < p
    · simp [sumDeltasBelow, List.filter_cons, h, ih, add_assoc]
    · simp [sumDeltasBelow, List.filter_cons, h, ih]

/-- `_cumulative_offset` computes exactly the specification's sum over
the recorded replacements whose original start lies strictly below the
queried position. -/
theorem cumulativeOffset_eq_sumDeltasBelow (offs : List (Nat × Int)) (p : Nat) :
    cumulativeOffset offs p = sumDeltasBelow offs p := by
  simpa using foldl_cumulativeOffset p offs 0

theorem scanCollect_eq_flatten (ds : List Detector) (text : List Char) :
    scanCollect ds text = (ds.map (detectorContribution text)).flatten := by
  suffices aux : ∀ (l : List Detector) (acc : List Finding),
      l.foldl (fun acc d =>
        match (d.detect text).error with
        | Option.none => acc ++ (d.detect text).yielded
        | some e => acc ++ (d.detect text).yielded ++ [errorFinding d.name e]) acc
        = acc ++ (l.map (detectorContribution text)).flatten by
    simpa [scanCollect] using aux ds []
  intro l
  induction l with
  | nil => simp
  | cons d rest ih =>
    intro acc
    simp only [List.foldl_cons, List.map_cons, List.flatten_cons]
    cases h : (d.detect text).error with
    | none =>
      simp only [h]
      rw [ih]
      simp [detectorContribution, h, List.append_assoc]
    | some e =>
      simp only [h]
      rw [ih]
      simp [detectorContribution, h, List.append_assoc]

theorem insertLe_perm (le : α → α → Bool) (x : α) (l : List α) :
    List.Perm (insertLe le x l) (x :: l) := by
  induction l with
  | nil => exact List.Perm.refl _
  | cons y ys ih =>
    by_cases h : le y x
    · simpa [insertLe, h] using (ih.cons y).trans (List.Perm.swap x y ys)
    · simp [insertLe, h]

theorem stableSortBy_perm (le : α → α → Bool) (l : List α) :
    List.Perm (stableSortBy le l) l := by
  suffices aux : ∀ (l acc : List α),
      List.Perm (l.foldl (fun acc x => insertLe le x acc) acc) (acc ++ l) by
    simpa using aux l []
  intro l
  induction l with
  | nil => simp
  | cons x xs ih =>
    intro acc
    have h1 := ih (insertLe le x acc)
    have h2 := (insertLe_perm le x acc).append_right xs
    have h3 : List.Perm ((x :: acc) ++ xs) (acc ++ x :: xs) := List.perm_middle.symm
    simpa using h1.trans (h2.trans h3)

theorem mem_scan_iff (ds : List Detector) (text : List Char) (f : Finding) :
    f ∈ scan ds text ↔ f ∈ scanCollect ds text :=
  (stableSortBy_perm keyLe (scanCollect ds text)).mem_iff

theorem keyLe_trans (a b c : Finding) (hab : keyLe a b) (hbc : keyLe b c) :
    keyLe a c := by
  simp only [keyLe, Bool.or_eq_true, Bool.and_eq_true, decide_eq_true_eq,
    beq_iff_eq] at *
  omega

theorem keyLe_total (a b : Finding) : keyLe a b || keyLe b a := by
  simp only [keyLe, Bool.or_eq_true, Bool.and_eq_true, decide_eq_true_eq,
    beq_iff_eq]
  omega

theorem pyRepeat_singleChar (c : Char) (n : Nat) :
    pyRepeat [c] n = List.replicate n c := by
  induction n with
  | zero => simp [pyRepeat]
  | succ m ih =>
    simp only [pyRepeat, List.replicate_succ, List.flatten_cons] at *
    simp [ih]

theorem mem_insertLe (le : α → α → Bool) (x : α) (l : List α) (y : α) :
    y ∈ insertLe le x l ↔ y = x ∨ y ∈ l := by
  rw [(insertLe_perm le x l).mem_iff]
  simp

theorem pairwise_insertLe (le : α → α → Bool)
    (htrans : ∀ a b c, le a b = true → le b c = true → le a c = true)
    (htot : ∀ a b, le a b || le b a)
    (x : α) (l : List α) (hl : l.Pairwise (fun a b => le a b = true)) :
    (insertLe le x l).Pairwise (fun a b => le a b = true) := by
  induction l with
  | nil => simp [insertLe]
  | cons y ys ih =>
    rcases List.pairwise_cons.mp hl with ⟨hy, hys⟩
    by_cases h : le y x
    · rw [insertLe, if_pos h]
      refine List.pairwise_cons.mpr ⟨?_, ih hys⟩
      intro b hb
      rcases (mem_insertLe le x ys b).mp hb with rfl | hb
      · exact h
      · exact hy b hb
    · rw [insertLe, if_neg h]
      have hxy : le x y := by
        rcases Bool.or_eq_true _ _ |>.mp (htot y x) with h' | h'
        · exact absurd h' h
        · exact h'
      refine List.pairwise_cons.mpr ⟨?_, hl⟩
      intro b hb
      rcases List.mem_cons.mp hb with rfl | hb
      · exact hxy
      · exact htrans x y b hxy (hy b hb)

theorem pairwise_stableSortBy (le : α → α → Bool)
    (htrans : ∀ a b c, le a b = true → le b c = true → le a c = true)
    (htot : ∀ a b, le a b || le b a) (l : List α) :
    (stableSortBy le l).Pairwise (fun a b => le a b = true) := by
  suffices aux : ∀ (l acc : List α), acc.Pairwise (fun a b => le a b = true) →
      (l.foldl (fun acc x => insertLe le x acc) acc).Pairwise
        (fun a b => le a b = true) by
    exact aux l [] (by simp)
  intro l
  induction l with
  | nil => intro acc h; simpa using h
  | cons x xs ih =>
    intro acc h
    simpa using ih (insertLe le x acc) (pairwise_insertLe le htrans htot x acc h)

theorem filter_insertLe_neg (le : α → α → Bool) (p : α → Bool) (x : α)
    (hx : p x = false) (l : List α) :
    (insertLe le x l).filter p = l.filter p := by
  induction l with
  | nil => simp [insertLe, hx]
  | cons y ys ih =>
    by_cases h : le y x
    · simp [insertLe, h, List.filter_cons, ih]
    · simp [insertLe, h, List.filter_cons, hx]

theorem filter_insertLe_pos (le : α → α → Bool)
    (htrans : ∀ a b c, le a b = true → le b c = true → le a c = true)
    (p : α → Bool) (x : α) (hx : p x = true) (l : List α)
    (hl : l.Pairwise (fun a b => le a b = true))
    (hp : ∀ y ∈ l, p y = true → le y x = true) :
    (insertLe le x l).filter p = l.filter p ++ [x] := by
  induction l with
  | nil => simp [insertLe, hx]
  | cons y ys ih =>
    rcases List.pairwise_cons.mp hl with ⟨hy, hys⟩
    by_cases h : le y x
    · rw [insertLe, if_pos h]
      rw [List.filter_cons, List.filter_cons]
      rw [ih hys (fun z hz hpz => hp z (List.mem_cons_of_mem y hz) hpz)]
      by_cases hpy : p y = true
      · simp [hpy]
      · simp [hpy]
    · have hnone : ∀ z ∈ y :: ys, p z = false := by
        intro z hz
        cases hb : p z with
        | false => rfl
        | true =>
          exfalso
          have hzx := hp z hz hb
          rcases List.mem_cons.mp hz with rfl | hzys
          · exact h hzx
          · exact h (htrans y z x (hy z hzys) hzx)
      have hfilter : (y :: ys).filter p = [] :=
        List.filter_eq_nil_iff.mpr (fun a ha => by simp [hnone a ha])
      rw [insertLe, if_neg h, List.filter_cons, hfilter]
      simp [hx]

theorem filter_stableSortBy (le : α → α → Bool)
    (htrans : ∀ a b c, le a b = true → le b c = true → le a c = true)
    (htot : ∀ a b, le a b || le b a) (p : α → Bool) (l : List α)
    (hties : ∀ x y, x ∈ l → y ∈ l → p x = true → p y = true → le y x = true) :
    (stableSortBy le l).filter p = l.filter p := by
  suffices aux : ∀ (l acc : List α), acc.Pairwise (fun a b => le a b = true) →
      (∀ x ∈ l, ∀ y ∈ acc, p x = true → p y = true → le y x = true) →
      (∀ x y, x ∈ l → y ∈ l → p x = true → p y = true → le y x = true) →
      (l.foldl (fun acc x => insertLe le x acc) acc).filter p
        = acc.filter p ++ l.filter p by
    simpa using aux l [] (by simp) (by simp) hties
  intro l
  induction l with
  | nil => intro acc _ _ _; simp
  | cons x xs ih =>
    intro acc hacc hcross hl
    have hmemx : x ∈ x :: xs := by simp
    have hcross' : ∀ x' ∈ xs, ∀ y ∈ insertLe le x acc,
        p x' = true → p y = true → le y x' = true := by
      intro x' hx' y hy hpx' hpy
      rcases (mem_insertLe le x acc y).mp hy with heq | hyacc
      · rw [heq] at hpy ⊢
        exact hl x' x (List.mem_cons_of_mem x hx') hmemx hpx' hpy
      · exact hcross x' (List.mem_cons_of_mem x hx') y hyacc hpx' hpy
    have hl' : ∀ a b, a ∈ xs → b ∈ xs → p a = true → p b = true → le b a = true :=
      fun a b ha hb => hl a b (List.mem_cons_of_mem x ha) (List.mem_cons_of_mem x hb)
    have hpair' := pairwise_insertLe le htrans htot x acc hacc
    simp only [List.foldl_cons]
    rw [ih (insertLe le x acc) hpair' hcross' hl']
    by_cases hpx : p x = true
    · rw [filter_insertLe_pos le htrans p x hpx acc hacc
        (fun y hy hpy => hcross x hmemx y hy hpx hpy)]
      simp [List.filter_cons, hpx]
    · rw [filter_insertLe_neg le p x (by simpa using hpx) acc]
      simp [List.filter_cons, hpx]

theorem ruleReplacements_hash_irrel (h₁ h₂ : List Char → List Char) (rule : Rule)
    (out : List Char) (adjusted : List (Finding × Int × Int))
    (hr : rule.action ≠ Action.tokenize) :
    ruleReplacements h₁ rule out adjusted = ruleReplacements h₂ rule out adjusted := by
  cases ha : rule.action
  · simp [ruleReplacements, ha]
  · simp [ruleReplacements, ha]
  · exact absurd ha hr

theorem processRule_hash_irrel (h₁ h₂ : List Char → List Char)
    (findings : List Finding) (st : EngineState) (rule : Rule)
    (hr : rule.action ≠ Action.tokenize) :
    processRule h₁ findings st rule = processRule h₂ findings st rule := by
  simp only [processRule]
  rw [ruleReplacements_hash_irrel h₁ h₂ rule st.out
    (adjustedTargets st.offsets (survivors findings rule)) hr]

/-- A policy without tokenize rules never invokes the hash. -/
theorem applyPolicy_hash_irrel (h₁ h₂ : List Char → List Char) (policy : Policy)
    (findings : List Finding) (text : List Char)
    (hr : ∀ r ∈ policy.rules, r.action ≠ Action.tokenize) :
    applyPolicy h₁ policy findings text = applyPolicy h₂ policy findings text := by
  suffices aux : ∀ (rs : List Rule) (st : EngineState), (∀ r ∈ rs, r.action ≠ Action.tokenize) →
      rs.foldl (processRule h₁ findings) st = rs.foldl (processRule h₂ findings) st by
    unfold applyPolicy
    rw [aux policy.rules ⟨text, []⟩ hr]
  intro rs
  induction rs with
  | nil => intro st _; rfl
  | cons r rest ih =>
    intro st hall
    simp only [List.foldl_cons]
    rw [processRule_hash_irrel h₁ h₂ findings st r (hall r (by simp)),
      ih _ (fun r' hr' => hall r' (by simp [hr']))]

/-! ## Claim theorems -/

/-- C1: applying the mixed policy (redact `email` with the default
placeholder, then mask `phone` with `keep_head=2, keep_tail=2,
mask_glyph='*'`) to `"Email test@example.com and phone 07123456789."`
with its email Finding at `(6, 22)` and phone Finding at `(33, 44)`
yields text containing `[REDACTED:EMAIL]` exactly once and containing
the masked phone fragment `07*******89`, for every choice of the
tokenize hash (which the policy never invokes). -/
theorem applyPolicy_mixed_scenario (hash : List Char → List Char) :
    countSubstr "[REDACTED:EMAIL]".toList
      (applyPolicy hash mixedPolicy [emailFinding, phoneFinding] mixedText) = 1 ∧
    countSubstr "07*******89".toList
      (applyPolicy hash mixedPolicy [emailFinding, phoneFinding] mixedText) = 1 := by
  rw [applyPolicy_hash_irrel hash (fun s => s) mixedPolicy [emailFinding, phoneFinding]
    mixedText (by decide)]
  exact ⟨by decide, by decide⟩

/-- C2 counterexample: in the overlap scenario, when rule 2 processes
`findB` (original span `(5, 10)`), the engine's adjusted end is `9`
(because `_cumulative_offset` is queried at the original *end* 10,
which lies above the ledger entry at 6), whereas the claim's formula —
original endpoint plus the deltas recorded strictly below the Finding's
original *start* 5 — yields `10`. -/
theorem adjustedSpan_endpoint_counterexample :
    adjustedTargets
      (engineStateAt (fun s => s) overlapPolicy [findA, findB] overlapText 1).offsets
      (survivors [findA, findB] ruleRewriteB) = [(findB, (5 : Int), (9 : Int))] ∧
    (findB.span.2 : Int) +
      sumDeltasBelow
        (engineStateAt (fun s => s) overlapPolicy [findA, findB] overlapText 1).offsets
        findB.span.1 = 10 := by
  exact ⟨by decide, by decide⟩

/-- C3 counterexample: the digit string `1111111111111` fails the Luhn
checksum, yet `CreditCardDetector.detect` emits a `credit_card` Finding
for it (with `luhn_valid = False` and no brand), refuting "digit strings
failing Luhn produce no credit_card Finding at all". -/
theorem creditCard_luhnFail_counterexample :
    luhnOk (digitsOnly "1111111111111".toList) = false ∧
    (creditCardDetect "1111111111111".toList).map Finding.span = [(0, 13)] ∧
    (creditCardDetect "1111111111111".toList).map Finding.extras =
      [[("luhn_valid".toList, XVal.b false), ("brand".toList, XVal.none)]] := by
  refine ⟨by decide, by decide, by decide⟩

/-- C4: evaluating `CreditCardDetector.detect` on
`"Card: 4111 1111 1111 1111"` — exactly one `credit_card` Finding is
emitted with brand `visa`, but it is marked `luhn_valid = False` with
confidence 0.4, because the broken `digits_only` (regex `r"\\D+"`)
leaves the spaces in place and the Luhn fold then runs over
`"4111 1111 1111 1111"`.  The separator-free PAN passes Luhn, isolating
the `digits_only` slip. -/
theorem creditCard_visaScenario_eval :
    creditCardDetect "Card: 4111 1111 1111 1111".toList =
      [{ kind := "credit_card".toList, value := "4111 1111 1111 1111".toList
         span := (6, 25), confidence := 40
         normalized := some "4111 1111 1111 1111".toList
         extras := [("luhn_valid".toList, XVal.b false),
                    ("brand".toList, XVal.str "visa".toList)] }] ∧
    luhnOk "4111111111111111".toList = true := by
  exact ⟨by decide, by decide⟩

/-- C5: evaluating `NHSNumberDetector.detect` on
`"NHS No: 943 476 5919"` — the regex does match `943 476 5919` at
`(8, 20)`, but the broken `digits_only` keeps the two spaces, the
12-character result fails the `len(d) != 10` gate, and **no** Finding is
emitted at all.  The mod-11 checksum itself accepts the properly
stripped digits `9434765919`. -/
theorem nhs_scenario_eval :
    findIter reNHS "NHS No: 943 476 5919".toList = [(8, 20)] ∧
    digitsOnly "943 476 5919".toList = "943 476 5919".toList ∧
    nhsDetect "NHS No: 943 476 5919".toList = [] ∧
    nhsValid "9434765919".toList = true := by
  refine ⟨by decide, by decide, by decide, by decide⟩

/-- C6 counterexample: a generator-style detector that yields
`partialFinding` and then raises `boom` does **not** have its partial
output discarded: `list.extend` has already appended the yielded
Finding when the exception is caught, so `partialFinding` appears in
the result of `scan`. -/
theorem scan_partialFinding_counterexample :
    (genDetector.detect "dummy text".toList).error = some "boom".toList ∧
    partialFinding ∈ (genDetector.detect "dummy text".toList).yielded ∧
    partialFinding ∈ scan [genDetector, staticDetector] "dummy text".toList := by
  refine ⟨by decide, by decide, by decide⟩

/-- C7: evaluating `scan` on the registry unit test's setup
(`_BrokenDetector` then `_StaticDetector`, text `"dummy text"`): the
result contains a synthesized `error` Finding whose span is `(0, 0)`
but whose value is the detector name `broken`, so
`text[f.span[0]:f.span[1]] == f.value` fails for it. -/
theorem scan_errorFinding_breaks_spanFidelity :
    scan [brokenDetector, staticDetector] "dummy text".toList =
      [errorFinding "broken".toList "boom".toList, staticFinding] ∧
    sliceN "dummy text".toList 0 0 ≠
      (errorFinding "broken".toList "boom".toList).value := by
  refine ⟨by decide, by decide⟩

/-- C9 counterexample: `_mask_segment` with `keep_head=0, keep_tail=0,
glyph='*'` maps `"ab"` to `"**ab"` — the Python slice `s[-0:]` is the
whole string, so the output is glyph run *plus the entire input*,
violating both the claimed shape and the claimed length preservation;
a two-character glyph also breaks length preservation. -/
theorem maskSegment_counterexample :
    maskSegment { keep_head := 0, keep_tail := 0, glyph := "*".toList } "ab".toList
      = "**ab".toList ∧
    (maskSegment { keep_head := 0, keep_tail := 0, glyph := "*".toList }
      "ab".toList).length ≠ ("ab".toList).length ∧
    (maskSegment { keep_head := 0, keep_tail := 1, glyph := "ab".toList }
      "xyz".toList).length ≠ ("xyz".toList).length := by
  refine ⟨by decide, by decide, by decide⟩

/-- C2 (amended): in the Policy Engine's rewrite loop, each endpoint of
a surviving Finding's adjusted span equals the corresponding original
endpoint plus the sum of the deltas of exactly those previously
recorded replacements whose original start index is strictly less than
*that endpoint's own* original coordinate — the Finding's original
start for the start endpoint, its original end for the end endpoint
(the two agree unless a recorded replacement started inside the
Finding's original span). -/
theorem adjustedSpan_uses_own_endpoints (hash : List Char → List Char)
    (policy : Policy) (findings : List Finding) (text : List Char)
    (i : Nat) (hi : i < policy.rules.length) (t : Finding × Int × Int)
    (ht : t ∈ adjustedTargets (engineStateAt hash policy findings text i).offsets
        (survivors findings (policy.rules.get ⟨i, hi⟩))) :
    t.2.1 = (t.1.span.1 : Int) +
        sumDeltasBelow (engineStateAt hash policy findings text i).offsets t.1.span.1 ∧
    t.2.2 = (t.1.span.2 : Int) +
        sumDeltasBelow (engineStateAt hash policy findings text i).offsets t.1.span.2 := by
  obtain ⟨f, _, rfl⟩ := List.mem_map.mp ht
  constructor <;> simp [cumulativeOffset_eq_sumDeltasBelow]

/-- Witness for C2's amended theorem, instantiated on the overlap
scenario at rule index 1. -/
theorem adjustedSpan_uses_own_endpoints_witness :
    ((findB, (5 : Int), (9 : Int)) : Finding × Int × Int).2.2
      = (findB.span.2 : Int) +
        sumDeltasBelow
          (engineStateAt (fun s => s) overlapPolicy [findA, findB] overlapText 1).offsets
          findB.span.2 :=
  (adjustedSpan_uses_own_endpoints (fun s => s) overlapPolicy [findA, findB]
    overlapText 1 (by decide) (findB, 5, 9) (by decide)).2

/-- C3 (amended): the credit-card detector emits a Finding for a
candidate regex match iff the candidate's `digits_only` length is in
13..19, *regardless of the Luhn checksum*; a failing checksum lowers
the confidence to 0.4 and records `luhn_valid = False` in extras
instead of suppressing the Finding. -/
theorem creditCard_emission_independent_of_luhn :
    (∀ (text : List Char) (f : Finding), f ∈ creditCardDetect text →
      ∃ d, f.normalized = some d ∧ d = digitsOnly f.value ∧
        13 ≤ d.length ∧ d.length ≤ 19 ∧
        f.confidence = (if luhnOk d then 90 else 40) ∧
        ("luhn_valid".toList, XVal.b (luhnOk d)) ∈ f.extras) ∧
    (∀ (text : List Char) (se : Nat × Nat), se ∈ findIter reCard text →
      13 ≤ (digitsOnly (sliceN text se.1 se.2)).length →
      (digitsOnly (sliceN text se.1 se.2)).length ≤ 19 →
      ∃ f, f ∈ creditCardDetect text ∧ f.span = se ∧
        f.value = sliceN text se.1 se.2 ∧
        ("luhn_valid".toList,
          XVal.b (luhnOk (digitsOnly (sliceN text se.1 se.2)))) ∈ f.extras) := by
  constructor
  · intro text f hf
    simp only [creditCardDetect, List.mem_filterMap] at hf
    obtain ⟨se, _, heq⟩ := hf
    by_cases hc : 13 ≤ (digitsOnly (sliceN text se.1 se.2)).length ∧
        (digitsOnly (sliceN text se.1 se.2)).length ≤ 19
    · rw [if_pos hc] at heq
      obtain rfl := Option.some.inj heq
      exact ⟨digitsOnly (sliceN text se.1 se.2), rfl, rfl, hc.1, hc.2, rfl, by simp⟩
    · rw [if_neg hc] at heq
      exact absurd heq (by simp)
  · intro text se hse h13 h19
    have hc : 13 ≤ (digitsOnly (sliceN text se.1 se.2)).length ∧
        (digitsOnly (sliceN text se.1 se.2)).length ≤ 19 := ⟨h13, h19⟩
    refine ⟨{ kind := "credit_card".toList, value := sliceN text se.1 se.2
              span := se
              confidence :=
                if luhnOk (digitsOnly (sliceN text se.1 se.2)) then 90 else 40
              normalized := some (digitsOnly (sliceN text se.1 se.2))
              extras :=
                [("luhn_valid".toList,
                    XVal.b (luhnOk (digitsOnly (sliceN text se.1 se.2)))),
                 ("brand".toList,
                    match guessCardBrand (digitsOnly (sliceN text se.1 se.2)) with
                    | some br => XVal.str br
                    | Option.none => XVal.none)] },
      ?_, rfl, rfl, by simp⟩
    simp only [creditCardDetect, List.mem_filterMap]
    exact ⟨se, hse, by rw [if_pos hc]⟩

/-- Witness for C3's amended theorem: a Luhn-failing 13-digit run still
yields a Finding (tagged invalid). -/
theorem creditCard_emission_independent_of_luhn_witness :
    ∃ f, f ∈ creditCardDetect "1234567890123".toList ∧ f.span = (0, 13) ∧
      f.value = sliceN "1234567890123".toList 0 13 ∧
      ("luhn_valid".toList,
        XVal.b (luhnOk (digitsOnly (sliceN "1234567890123".toList 0 13)))) ∈ f.extras :=
  creditCard_emission_independent_of_luhn.2 "1234567890123".toList (0, 13)
    (by decide) (by decide) (by decide)

/-- C6 (amended): `scan` never aborts — every Finding a detector
yielded appears in the result, *including* the Findings a failing
detector produced before raising (the `findings.extend(generator)`
inside the `try` has already appended them when the exception is
caught); the failure itself is additionally recorded as an in-band
error Finding. -/
theorem scan_keeps_yielded_findings (ds : List Detector) (text : List Char)
    (d : Detector) (f : Finding) (hd : d ∈ ds)
    (hf : f ∈ (d.detect text).yielded) :
    f ∈ scan ds text := by
  rw [mem_scan_iff, scanCollect_eq_flatten, List.mem_flatten]
  refine ⟨detectorContribution text d, List.mem_map_of_mem _ hd, ?_⟩
  rw [detectorContribution]
  cases (d.detect text).error <;> simp [hf]

/-- Witness for C6's amended theorem: the partially-yielded Finding of
the raising generator detector is in the scan result. -/
theorem scan_keeps_yielded_findings_witness :
    partialFinding ∈ scan [genDetector, staticDetector] "dummy text".toList :=
  scan_keeps_yielded_findings [genDetector, staticDetector] "dummy text".toList
    genDetector partialFinding (by simp) (by simp [genDetector])

/-- C8: `scan` returns its Findings sorted non-decreasing by
`(span start, span end)`, and Findings with equal spans appear in
exactly the order they occupy in the pre-sort accumulation list — which
lists detectors in registration order — i.e. the sort is stable. -/
theorem scan_sorted_and_stable (ds : List Detector) (text : List Char) :
    (scan ds text).Pairwise (fun f g =>
      f.span.1 < g.span.1 ∨ (f.span.1 = g.span.1 ∧ f.span.2 ≤ g.span.2)) ∧
    ∀ sp : Nat × Nat,
      (scan ds text).filter (fun f => f.span == sp)
        = (scanCollect ds text).filter (fun f => f.span == sp) := by
  constructor
  · have hp := pairwise_stableSortBy keyLe keyLe_trans keyLe_total (scanCollect ds text)
    refine hp.imp ?_
    intro a b hab
    simpa [keyLe, Bool.or_eq_true, Bool.and_eq_true, decide_eq_true_eq,
      beq_iff_eq] using hab
  · intro sp
    refine filter_stableSortBy keyLe keyLe_trans keyLe_total _ _ ?_
    intro x y _ _ hpx hpy
    have hx : x.span = sp := by simpa using hpx
    have hy : y.span = sp := by simpa using hpy
    simp [keyLe, hx, hy]

/-- C9 (amended): for `keep_tail ≥ 1` and a single-character glyph, the
mask keeps the first `keep_head` and last `keep_tail` characters and
replaces the middle with the glyph (everything, when the string is no
longer than `keep_head + keep_tail`), always preserving the length.
(`keep_tail = 0` hits the Python `s[-0:]` pitfall and multi-character
glyphs change the length, as the counterexample shows.) -/
theorem maskSegment_keeps_head_tail (h t : Nat) (g : Char) (s : List Char)
    (ht : 1 ≤ t) :
    (s.length ≤ h + t →
      maskSegment { keep_head := h, keep_tail := t, glyph := [g] } s
        = List.replicate s.length g) ∧
    (h + t < s.length →
      maskSegment { keep_head := h, keep_tail := t, glyph := [g] } s
        = s.take h ++ List.replicate (s.length - h - t) g ++ s.drop (s.length - t)) ∧
    (maskSegment { keep_head := h, keep_tail := t, glyph := [g] } s).length
      = s.length := by
  have ht0 : t ≠ 0 := by omega
  by_cases hc : s.length ≤ h + t
  · refine ⟨fun _ => ?_, fun hlt => absurd hc (by omega), ?_⟩
    · rw [maskSegment, if_pos hc, pyRepeat_singleChar]
    · rw [maskSegment, if_pos hc, pyRepeat_singleChar, List.length_replicate]
  · refine ⟨fun hle => absurd hle hc, fun _ => ?_, ?_⟩
    · rw [maskSegment, if_neg hc, pyRepeat_singleChar, pyTailSlice, if_neg ht0]
    · rw [maskSegment, if_neg hc, pyRepeat_singleChar, pyTailSlice, if_neg ht0]
      simp only [List.length_append, List.length_take, List.length_replicate,
        List.length_drop]
      omega

/-- Witness for C9's amended theorem at `keep_head=1, keep_tail=1,
glyph='*'` on `"abcd"`. -/
theorem maskSegment_keeps_head_tail_witness :
    (maskSegment { keep_head := 1, keep_tail := 1, glyph := ['*'] }
      "abcd".toList).length = ("abcd".toList).length :=
  (maskSegment_keeps_head_tail 1 1 '*' "abcd".toList (by decide)).2.2

/-- C10: whenever a detector in the scanned registry raises, the scan
result contains a synthesized Finding with kind `error`, span `(0, 0)`,
confidence 0.0, whose value is the failing detector's name and whose
extras record the exception message — failures are reported in-band to
every consumer of the findings list. -/
theorem scan_reports_failures_inband (ds : List Detector) (text : List Char)
    (d : Detector) (msg : List Char) (hd : d ∈ ds)
    (he : (d.detect text).error = some msg) :
    ∃ f, f ∈ scan ds text ∧ f.kind = "error".toList ∧ f.span = (0, 0) ∧
      f.confidence = 0 ∧ f.value = d.name ∧
      f.extras = [("error".toList, XVal.str msg)] := by
  refine ⟨errorFinding d.name msg, ?_, rfl, rfl, rfl, rfl, rfl⟩
  rw [mem_scan_iff, scanCollect_eq_flatten, List.mem_flatten]
  refine ⟨detectorContribution text d, List.mem_map_of_mem _ hd, ?_⟩
  rw [detectorContribution]
  simp [he]

/-- Witness for C10 on the broken detector of the registry unit test. -/
theorem scan_reports_failures_inband_witness :
    ∃ f, f ∈ scan [brokenDetector] "x".toList ∧ f.kind = "error".toList ∧
      f.span = (0, 0) ∧ f.confidence = 0 ∧ f.value = brokenDetector.name ∧
      f.extras = [("error".toList, XVal.str "boom".toList)] :=
  scan_reports_failures_inband [brokenDetector] "x".toList brokenDetector
    "boom".toList (by simp) rfl

end Redactable
